import Mathlib

/-!
# Finite-field Schnorr proofs (Fiat–Shamir) and their batch verification

A shallow embedding of `Fiat-Shamir Heuristic/fs_batch_benchmark.cpp`.

* OpenSSL `BIGNUM` values are natural numbers (the program only ever builds
  non-negative values); the `BN_*` calls are the arithmetic they document.
* `SHA256` is an external primitive: every definition that hashes takes the
  hash function as an argument.
* `BN_rand_range` is a source of randomness: the value it draws is an argument
  of the step that uses it.
* The `BN_mod*` calls fail for a zero modulus; the definitions describe the
  calls that succeed, and every statement about them fixes `p > 0`, `q > 0`
  where its claim does.
-/

namespace FsBatch

/-! ## Data model -/

/-- The `struct Proof` of the benchmark: commitment, response, cached challenge. -/
structure Proof where
  f : Nat
  r : Nat
  c : Nat
deriving DecidableEq, Repr

/-- An `unsigned char`. -/
abbrev Byte := Fin 256

/-- The constant `SHA256_DIGEST_LENGTH` of `openssl/sha.h`. -/
def SHA256_DIGEST_LENGTH : Nat := 32

/-- The buffer `unsigned char digest[SHA256_DIGEST_LENGTH]`. -/
abbrev Digest := Fin SHA256_DIGEST_LENGTH → Byte

/-- A hash primitive with the interface of `SHA256(data, len, digest)`. -/
abbrev HashFn := List Byte → Digest

/-- The decimal literal `P_DEC`. -/
def P_DEC : Nat := 5502416447973014042564914579205940370339

/-- The decimal literal `Q_DEC`. -/
def Q_DEC : Nat := 305689802665167446809161921066996687241

/-- The generator `G_INT`. -/
def G_INT : Nat := 67

/-! ## The OpenSSL calls the program makes -/

/-- `BN_mod(r, a, m, ctx)`: the remainder of `a` by `m`. -/
def BN_mod (a m : Nat) : Nat := a % m

/-- `BN_mod_add(r, a, b, m, ctx)`: the sum reduced modulo `m`. -/
def BN_mod_add (a b m : Nat) : Nat := (a + b) % m

/-- `BN_mod_mul(r, a, b, m, ctx)`: the product reduced modulo `m`. -/
def BN_mod_mul (a b m : Nat) : Nat := (a * b) % m

/-- `BN_mod_exp(r, a, e, m, ctx)`: the power reduced modulo `m`. -/
def BN_mod_exp (a e m : Nat) : Nat := a ^ e % m

/-- `BN_cmp(a, b)`: `-1`, `0` or `1`. -/
def BN_cmp (a b : Nat) : Int :=
  if a < b then -1 else if a = b then 0 else 1

/-- `BN_bin2bn(s, len, ret)`: the bytes read as a big-endian unsigned integer,
accumulated from the most significant byte on. -/
def BN_bin2bn (s : List Byte) : Nat :=
  s.foldl (fun ret b => ret * 256 + b.val) 0

/-- The digit table `"0123456789ABCDEF"` of `BN_bn2hex`. -/
def hexDigit (v : Nat) : Char :=
  match v with
  | 0 => '0' | 1 => '1' | 2 => '2' | 3 => '3'
  | 4 => '4' | 5 => '5' | 6 => '6' | 7 => '7'
  | 8 => '8' | 9 => '9' | 10 => 'A' | 11 => 'B'
  | 12 => 'C' | 13 => 'D' | 14 => 'E' | _ => 'F'

/-- The bytes of `a` from the least significant one up are pushed onto `acc`;
`fuel` bounds the number of bytes produced. -/
def bnBytesAux : Nat → Nat → List Nat → List Nat
  | 0, _, acc => acc
  | fuel + 1, a, acc =>
    if a = 0 then acc else bnBytesAux fuel (a / 256) ((a % 256) :: acc)

/-- The big-endian bytes of `a` without leading zero bytes (what the loop of
`BN_bn2hex` visits once it has skipped the leading zero bytes). -/
def bnBytes (a : Nat) : List Nat := bnBytesAux a a []

/-- Two upper-case hexadecimal digits for every byte. -/
def hexOfBytes : List Nat → List Char
  | [] => []
  | v :: vs => hexDigit (v / 16) :: hexDigit (v % 16) :: hexOfBytes vs

/-- `BN_bn2hex(a)` for `a ≥ 0`: `"0"` for zero, otherwise two upper-case
hexadecimal digits for every byte of the minimal big-endian byte string. -/
def BN_bn2hex (a : Nat) : List Char :=
  if a = 0 then ['0'] else hexOfBytes (bnBytes a)

/-- The byte a `char` of the payload is read as by
`reinterpret_cast<const unsigned char*>(payload.data())`. -/
def charByte (ch : Char) : Byte := Fin.ofNat ch.toNat

/-! ## The program -/

/-- The string `payload = std::string(f_hex) + std::string(y_hex)` of
`hash_challenge`. -/
def payload (f y : Nat) : List Char :=
  let f_hex := BN_bn2hex f
  let y_hex := BN_bn2hex y
  f_hex ++ y_hex

/-- `hash_challenge(f, y, q, ctx)`: hash `f||y`, read the digest as a number,
reduce it modulo `q`. -/
def hash_challenge (SHA256 : HashFn) (f y q : Nat) : Nat :=
  let digest := SHA256 ((payload f y).map charByte)
  let h := BN_bin2bn (List.ofFn digest)
  BN_mod h q

/-- One iteration of the generation loop of `main`; `s` is the value drawn by
`BN_rand_range(s, q)`. -/
def gen_proof (SHA256 : HashFn) (p q g x y s : Nat) : Proof :=
  let f := BN_mod_exp g s p
  let c := hash_challenge SHA256 f y q
  let r := BN_mod_mul c x q
  let r := BN_mod_add r s q
  { f := f, r := r, c := c }

/-- One iteration of the individual verification loop of `main`: `true` when
the iteration does not report `verification failed!`. -/
def verify_one (SHA256 : HashFn) (p q g y : Nat) (pr : Proof) : Bool :=
  let c := hash_challenge SHA256 pr.f y q
  let lhs := BN_mod_exp g pr.r p
  let y_c := BN_mod_exp y c p
  let rhs := BN_mod_mul pr.f y_c p
  BN_cmp lhs rhs == 0

/-- The three accumulators `sum_r`, `sum_c`, `prod_f` of the batch phase. -/
structure Accum where
  sum_r : Nat
  sum_c : Nat
  prod_f : Nat
deriving DecidableEq, Repr

/-- The accumulators after `BN_zero(sum_r)`, `BN_zero(sum_c)`, `BN_one(prod_f)`. -/
def accum_init : Accum := { sum_r := 0, sum_c := 0, prod_f := 1 }

/-- The body of the batch loop of `main`. -/
def batch_step (p q : Nat) (acc : Accum) (pr : Proof) : Accum :=
  { sum_r := BN_mod_add acc.sum_r pr.r q
    sum_c := BN_mod_add acc.sum_c pr.c q
    prod_f := BN_mod_mul acc.prod_f pr.f p }

/-- The batch loop of `main` run from the accumulators `acc`. -/
def batch_fold_from (p q : Nat) (acc : Accum) (proofs : List Proof) : Accum :=
  proofs.foldl (batch_step p q) acc

/-- The batch loop of `main` over the whole vector `proofs`. -/
def batch_fold (p q : Nat) (proofs : List Proof) : Accum :=
  batch_fold_from p q accum_init proofs

/-- The value of `batch_pass` in `main`. -/
def batch_pass (p q g y : Nat) (proofs : List Proof) : Bool :=
  let acc := batch_fold p q proofs
  let left := BN_mod_exp g acc.sum_r p
  let y_pow := BN_mod_exp y acc.sum_c p
  let right := BN_mod_mul acc.prod_f y_pow p
  BN_cmp left right == 0

/-- The generation loop of `main`: one proof for every drawn `s`. -/
def gen_proofs (SHA256 : HashFn) (p q g x y : Nat) (ss : List Nat) : List Proof :=
  ss.map (gen_proof SHA256 p q g x y)

/-- The individual verification loop of `main`: the number of
`verification failed!` lines it prints. -/
def solo_failures (SHA256 : HashFn) (p q g y : Nat) (proofs : List Proof) : Nat :=
  (proofs.filter (fun pr => !verify_one SHA256 p q g y pr)).length

/-- The proof `pr` with its response field replaced by `r`. -/
def Proof.with_r (pr : Proof) (r : Nat) : Proof := { f := pr.f, r := r, c := pr.c }

/-- The proof `pr` with its cached challenge field replaced by `c`. -/
def Proof.with_c (pr : Proof) (c : Nat) : Proof := { f := pr.f, r := pr.r, c := c }

/-! ## The two verification phases with a counter of modular exponentiations

The same code, with the number of calls to `BN_mod_exp` made so far threaded
through as state: a call to `BN_mod_exp` adds one, no other call changes it. -/

/-- A call `BN_mod_exp(r, a, e, m, ctx)` made after `calls` earlier ones: its
result and the new number of calls. -/
def BN_mod_exp_counted (a e m calls : Nat) : Nat × Nat :=
  (BN_mod_exp a e m, calls + 1)

/-- One iteration of the individual verification loop, counting: its verdict
and the number of calls after it. -/
def verify_one_counted (SHA256 : HashFn) (p q g y : Nat) (pr : Proof) (calls : Nat) :
    Bool × Nat :=
  let c := hash_challenge SHA256 pr.f y q
  let lhs := BN_mod_exp_counted g pr.r p calls
  let y_c := BN_mod_exp_counted y c p lhs.2
  let rhs := BN_mod_mul pr.f y_c.1 p
  (BN_cmp lhs.1 rhs == 0, y_c.2)

/-- The body of the individual verification loop on the state
(failures reported, calls made). -/
def solo_step_counted (SHA256 : HashFn) (p q g y : Nat) (st : Nat × Nat) (pr : Proof) :
    Nat × Nat :=
  let v := verify_one_counted SHA256 p q g y pr st.2
  (if v.1 then st.1 else st.1 + 1, v.2)

/-- The individual verification loop of `main`, counting, from no failure and no
call: the failures reported and the calls made. -/
def solo_loop_counted (SHA256 : HashFn) (p q g y : Nat) (proofs : List Proof) : Nat × Nat :=
  proofs.foldl (solo_step_counted SHA256 p q g y) (0, 0)

/-- The batch phase of `main`, counting, from no call: the value of
`batch_pass` and the calls made. -/
def batch_counted (p q g y : Nat) (proofs : List Proof) : Bool × Nat :=
  let acc := batch_fold p q proofs
  let left := BN_mod_exp_counted g acc.sum_r p 0
  let y_pow := BN_mod_exp_counted y acc.sum_c p left.2
  let right := BN_mod_mul acc.prod_f y_pow.1 p
  (BN_cmp left.1 right == 0, y_pow.2)

/-! ## Reference definitions, following the specification's wording

They are written over bytes and numbers only and use none of the definitions
above that model the code (`hexDigit`, `BN_bn2hex`, `charByte`, `BN_bin2bn`). -/

/-- Reference: the ASCII code of the upper-case hexadecimal digit of value `d`,
`48` to `57` for the digits `0` to `9` and `65` to `70` for `A` to `F`. -/
def spec_hex_code (d : Nat) : Byte :=
  ⟨(if d < 10 then 48 + d else 55 + d) % 256, Nat.mod_lt _ (by decide)⟩

/-- Reference rendering `hex(n)` as an ASCII string: the upper-case hexadecimal
of the minimal big-endian byte string of `n`, two digits per byte, the one
character `0` (code `48`) for zero. -/
def spec_hex_ascii (n : Nat) : List Byte :=
  if n = 0 then [⟨48, by decide⟩]
  else ((Nat.digits 256 n).reverse.map fun b =>
    [spec_hex_code (b / 16), spec_hex_code (b % 16)]).flatten

/-- Reference value of a digest: its 32 bytes read as a big-endian unsigned
integer, byte `i` weighing `256 ^ (31 - i)`. -/
def spec_digest_value (d : Digest) : Nat :=
  ∑ i : Fin SHA256_DIGEST_LENGTH, (d i).val * 256 ^ (SHA256_DIGEST_LENGTH - 1 - i.val)

/-- Reference challenge: the digest of the ASCII string `hex(f) ++ hex(y)`, read
as a big-endian unsigned integer, reduced modulo `q`. -/
def spec_challenge (SHA256 : HashFn) (f y q : Nat) : Nat :=
  spec_digest_value (SHA256 (spec_hex_ascii f ++ spec_hex_ascii y)) % q

/-! ## Hash functions used to evaluate the definitions on concrete inputs -/

/-- A small stand-in for the hash primitive: byte `i` of the digest is the sum
of the message bytes plus `i`, modulo 256. -/
def sumHash : HashFn :=
  fun msg i => Fin.ofNat ((msg.map Fin.val).sum + i.val)

/-! ## Auxiliary definitions for the proofs -/

/-- Square-and-multiply over the binary digits of the exponent; `fuel` bounds
the number of digits. Only used to evaluate `BN_mod_exp` on large numbers. -/
def sqMulChain (a m : Nat) : Nat → Nat → Nat
  | 0, _ => 1 % m
  | fuel + 1, e =>
    if e = 0 then 1 % m
    else
      match sqMulChain a m fuel (e / 2) with
      | h => if e % 2 = 0 then h * h % m else h * h % m * a % m

/-- The aggregate equation, as a congruence, for the accumulators `acc`. -/
def AggregateInv (p g y : Nat) (acc : Accum) : Prop :=
  g ^ acc.sum_r ≡ acc.prod_f * y ^ acc.sum_c [MOD p]

/-- The string `BN_bn2hex` returns, written over the base-256 digits of `n`
(an intermediate form for the proofs). -/
def hexOfDigits (n : Nat) : List Char :=
  if n = 0 then ['0']
  else ((Nat.digits 256 n).reverse.map fun b => [hexDigit (b / 16), hexDigit (b % 16)]).flatten

/-! ## Arithmetic of exponents modulo the order -/

theorem BN_cmp_eq_zero (a b : Nat) : (BN_cmp a b == 0) = true ↔ a = b := by
  unfold BN_cmp
  by_cases h1 : a < b
  · simp [h1]; omega
  · by_cases h2 : a = b
    · simp [h2]
    · simp [h1, h2]

theorem pow_order_modEq {g q p : Nat} (hg : g ^ q % p = 1) : g ^ q ≡ 1 [MOD p] := by
  have hp : p ≠ 1 := by
    rintro rfl
    simp [Nat.mod_one] at hg
  unfold Nat.ModEq
  rw [hg]
  rcases Nat.lt_or_ge 1 p with h | h
  · exact (Nat.mod_eq_of_lt h).symm
  · have : p = 0 := by omega
    subst this
    simp

theorem pow_mod_order {g q p : Nat} (hg : g ^ q % p = 1) (a : Nat) :
    g ^ (a % q) ≡ g ^ a [MOD p] := by
  have h1 : g ^ a = (g ^ q) ^ (a / q) * g ^ (a % q) := by
    rw [← pow_mul, ← pow_add, Nat.div_add_mod]
  have h2 : (g ^ q) ^ (a / q) * g ^ (a % q) ≡ 1 ^ (a / q) * g ^ (a % q) [MOD p] :=
    Nat.ModEq.mul_right _ ((pow_order_modEq hg).pow _)
  rw [h1]
  simpa using h2.symm

theorem verify_one_iff (SHA256 : HashFn) (p q g y : Nat) (pr : Proof) :
    verify_one SHA256 p q g y pr = true ↔
      g ^ pr.r % p = (pr.f * (y ^ (hash_challenge SHA256 pr.f y q) % p)) % p := by
  simp only [verify_one, BN_cmp_eq_zero, BN_mod_exp, BN_mod_mul]

theorem honest_response {g q p : Nat} (hg : g ^ q % p = 1) (x s c : Nat) :
    g ^ (((c * x) % q + s) % q) % p = ((g ^ s % p) * ((g ^ x % p) ^ c % p)) % p := by
  have h1 : g ^ (((c * x) % q + s) % q) ≡ g ^ ((c * x) % q + s) [MOD p] := pow_mod_order hg _
  have h2 : g ^ ((c * x) % q + s) ≡ g ^ (c * x) * g ^ s [MOD p] := by
    rw [pow_add]
    exact Nat.ModEq.mul_right _ (pow_mod_order hg _)
  have h3 : g ^ (c * x) * g ^ s = g ^ s * (g ^ x) ^ c := by
    rw [mul_comm c x, pow_mul, mul_comm]
  have h4 : g ^ s * (g ^ x) ^ c ≡ (g ^ s % p) * ((g ^ x % p) ^ c % p) [MOD p] := by
    apply Nat.ModEq.mul
    · exact (Nat.mod_modEq _ _).symm
    · exact ((Nat.ModEq.pow c (Nat.mod_modEq (g ^ x) p)).symm).trans (Nat.mod_modEq _ _).symm
  exact (h1.trans (h2.trans (h3 ▸ h4)))

theorem gen_proof_valid (SHA256 : HashFn) {p q g : Nat} (hg : g ^ q % p = 1) (x s : Nat) :
    verify_one SHA256 p q g (g ^ x % p) (gen_proof SHA256 p q g x (g ^ x % p) s) = true := by
  rw [verify_one_iff]
  simp only [gen_proof, BN_mod_exp, BN_mod_mul, BN_mod_add]
  exact honest_response hg x s _

/-! ## The batch loop preserves the aggregate equation -/

theorem pow_key_order {g q p : Nat} (hg : g ^ q % p = 1) (x : Nat) :
    (g ^ x % p) ^ q % p = 1 := by
  have h1 : (g ^ x % p) ^ q ≡ (g ^ x) ^ q [MOD p] := Nat.ModEq.pow q (Nat.mod_modEq _ _)
  have h2 : (g ^ x) ^ q = (g ^ q) ^ x := by rw [← pow_mul, ← pow_mul, mul_comm]
  have h3 : (g ^ q) ^ x ≡ 1 ^ x [MOD p] := Nat.ModEq.pow x (pow_order_modEq hg)
  have h4 : (g ^ x % p) ^ q ≡ g ^ q [MOD p] := by
    rw [h2] at h1
    rw [one_pow] at h3
    exact (h1.trans h3).trans (pow_order_modEq hg).symm
  exact (show (g ^ x % p) ^ q % p = g ^ q % p from h4).trans hg

theorem proof_eq_modEq {p g y : Nat} {pr : Proof}
    (h : g ^ pr.r % p = (pr.f * (y ^ pr.c % p)) % p) : g ^ pr.r ≡ pr.f * y ^ pr.c [MOD p] := by
  have h1 : pr.f * (y ^ pr.c % p) ≡ pr.f * y ^ pr.c [MOD p] :=
    Nat.ModEq.mul_left _ (Nat.mod_modEq _ _)
  exact Nat.ModEq.trans h h1

theorem batch_step_inv {p q g y : Nat} (hg : g ^ q % p = 1) (hy : y ^ q % p = 1)
    {acc : Accum} {pr : Proof} (hacc : AggregateInv p g y acc)
    (hpr : g ^ pr.r ≡ pr.f * y ^ pr.c [MOD p]) :
    AggregateInv p g y (batch_step p q acc pr) := by
  unfold AggregateInv at *
  simp only [batch_step, BN_mod_add, BN_mod_mul]
  have h1 : g ^ ((acc.sum_r + pr.r) % q) ≡ g ^ acc.sum_r * g ^ pr.r [MOD p] := by
    rw [← pow_add]
    exact pow_mod_order hg _
  have h2 : g ^ acc.sum_r * g ^ pr.r ≡ (acc.prod_f * y ^ acc.sum_c) * (pr.f * y ^ pr.c) [MOD p] :=
    Nat.ModEq.mul hacc hpr
  have h3 : (acc.prod_f * y ^ acc.sum_c) * (pr.f * y ^ pr.c) =
      (acc.prod_f * pr.f) * y ^ (acc.sum_c + pr.c) := by
    rw [pow_add]; ring
  have h4 : (acc.prod_f * pr.f) * y ^ (acc.sum_c + pr.c) ≡
      (acc.prod_f * pr.f % p) * y ^ ((acc.sum_c + pr.c) % q) [MOD p] :=
    Nat.ModEq.mul (Nat.mod_modEq _ _).symm (pow_mod_order hy _).symm
  exact h1.trans (h2.trans (h3 ▸ h4))

theorem batch_fold_from_inv {p q g y : Nat} (hg : g ^ q % p = 1) (hy : y ^ q % p = 1)
    (proofs : List Proof) :
    ∀ acc : Accum, AggregateInv p g y acc →
      (∀ pr ∈ proofs, g ^ pr.r % p = (pr.f * (y ^ pr.c % p)) % p) →
      AggregateInv p g y (batch_fold_from p q acc proofs) := by
  induction proofs with
  | nil => intro acc hacc _; simpa [batch_fold_from] using hacc
  | cons pr rest ih =>
    intro acc hacc hall
    have hstep := batch_step_inv hg hy hacc (proof_eq_modEq (hall pr (List.mem_cons_self _ _)))
    have := ih (batch_step p q acc pr) hstep (fun pr2 h2 => hall pr2 (List.mem_cons_of_mem _ h2))
    simpa [batch_fold_from] using this

theorem batch_pass_iff (p q g y : Nat) (proofs : List Proof) :
    batch_pass p q g y proofs = true ↔
      g ^ (batch_fold p q proofs).sum_r % p =
        ((batch_fold p q proofs).prod_f * (y ^ (batch_fold p q proofs).sum_c % p)) % p := by
  simp only [batch_pass, BN_cmp_eq_zero, BN_mod_exp, BN_mod_mul]

theorem batch_pass_of_inv {p q g y : Nat} {proofs : List Proof}
    (h : AggregateInv p g y (batch_fold p q proofs)) : batch_pass p q g y proofs = true := by
  rw [batch_pass_iff]
  have h1 : (batch_fold p q proofs).prod_f * (y ^ (batch_fold p q proofs).sum_c % p) ≡
      (batch_fold p q proofs).prod_f * y ^ (batch_fold p q proofs).sum_c [MOD p] :=
    Nat.ModEq.mul_left _ (Nat.mod_modEq _ _)
  exact Nat.ModEq.trans h h1.symm

theorem accum_init_inv (p g y : Nat) : AggregateInv p g y accum_init := by
  simp [AggregateInv, accum_init, Nat.ModEq]

theorem batch_pass_of_all_valid {p q g : Nat} (hg : g ^ q % p = 1) (x : Nat)
    (proofs : List Proof)
    (hall : ∀ pr ∈ proofs, g ^ pr.r % p = (pr.f * ((g ^ x % p) ^ pr.c % p)) % p) :
    batch_pass p q g (g ^ x % p) proofs = true :=
  batch_pass_of_inv
    (batch_fold_from_inv hg (pow_key_order hg x) proofs accum_init (accum_init_inv _ _ _) hall)

theorem gen_proof_cached_eq (SHA256 : HashFn) {p q g : Nat} (hg : g ^ q % p = 1) (x s : Nat) :
    g ^ (gen_proof SHA256 p q g x (g ^ x % p) s).r % p =
      ((gen_proof SHA256 p q g x (g ^ x % p) s).f *
        ((g ^ x % p) ^ (gen_proof SHA256 p q g x (g ^ x % p) s).c % p)) % p :=
  (verify_one_iff SHA256 p q g (g ^ x % p) _).mp (gen_proof_valid SHA256 hg x s)

/-! ## Exponents of an element of exact order `q` -/

theorem pow_ne_of_lt {g q p : Nat} (hg : g ^ q % p = 1)
    (hord : ∀ k, 0 < k → k < q → g ^ k % p ≠ 1) {a b : Nat} (hab : a < b) (hb : b < q) :
    g ^ a % p ≠ g ^ b % p := by
  intro h
  have h1 : g ^ a * g ^ (q - b) ≡ g ^ b * g ^ (q - b) [MOD p] := Nat.ModEq.mul_right _ h
  rw [← pow_add, ← pow_add, show b + (q - b) = q by omega] at h1
  have h2 : g ^ (a + (q - b)) % p = 1 :=
    (show g ^ (a + (q - b)) % p = g ^ q % p from h1).trans hg
  exact hord (a + (q - b)) (by omega) (by omega) h2

theorem exp_eq_of_pow_eq {g q p : Nat} (hg : g ^ q % p = 1)
    (hord : ∀ k, 0 < k → k < q → g ^ k % p ≠ 1) {a b : Nat} (ha : a < q) (hb : b < q)
    (h : g ^ a % p = g ^ b % p) : a = b := by
  rcases Nat.lt_trichotomy a b with hlt | heq | hgt
  · exact absurd h (pow_ne_of_lt hg hord hlt hb)
  · exact heq
  · exact absurd h.symm (pow_ne_of_lt hg hord hgt ha)

theorem gen_proof_r_lt (SHA256 : HashFn) {q : Nat} (hq : 0 < q) (p g x y s : Nat) :
    (gen_proof SHA256 p q g x y s).r < q := by
  simp only [gen_proof, BN_mod_add]
  exact Nat.mod_lt _ hq

theorem verify_with_r_false (SHA256 : HashFn) {p q g : Nat} (hq : 0 < q) (hg : g ^ q % p = 1)
    (hord : ∀ k, 0 < k → k < q → g ^ k % p ≠ 1) (x s : Nat) {r2 : Nat} (hr2 : r2 < q)
    (hne : r2 ≠ (gen_proof SHA256 p q g x (g ^ x % p) s).r) :
    verify_one SHA256 p q g (g ^ x % p)
      ((gen_proof SHA256 p q g x (g ^ x % p) s).with_r r2) = false := by
  rw [Bool.eq_false_iff]
  intro hv
  rw [verify_one_iff] at hv
  have hh := (verify_one_iff SHA256 p q g (g ^ x % p) _).mp (gen_proof_valid SHA256 hg x s)
  simp only [Proof.with_r] at hv
  exact hne (exp_eq_of_pow_eq hg hord hr2 (gen_proof_r_lt SHA256 hq p g x _ s) (hv.trans hh.symm))

theorem shift_mod_ne {q r d : Nat} (hr : r < q) (hd0 : 0 < d) (hdq : d < q) :
    (r + d) % q ≠ r := by
  intro h
  have h1 : r + d ≡ r + 0 [MOD q] := by
    unfold Nat.ModEq
    rw [h, Nat.add_zero, Nat.mod_eq_of_lt hr]
  have h2 : d ≡ 0 [MOD q] := Nat.ModEq.add_left_cancel' r h1
  have h3 : q ∣ d := (Nat.modEq_zero_iff_dvd).mp h2
  have := Nat.le_of_dvd hd0 h3
  omega

theorem batch_fold_pair (p q : Nat) (a b : Proof) :
    batch_fold p q [a, b] =
      { sum_r := (a.r + b.r) % q, sum_c := (a.c + b.c) % q, prod_f := (a.f * b.f) % p } := by
  simp [batch_fold, batch_fold_from, batch_step, accum_init, BN_mod_add, BN_mod_mul,
    Nat.mod_add_mod, Nat.mod_mul_mod]

/-! ## The byte and hexadecimal renderings -/

theorem bin2bn_foldl (l : List Byte) : ∀ acc : Nat,
    l.foldl (fun ret b => ret * 256 + b.val) acc = acc * 256 ^ l.length + BN_bin2bn l := by
  induction l with
  | nil => intro acc; simp [BN_bin2bn]
  | cons b rest ih =>
    intro acc
    simp only [BN_bin2bn, List.foldl_cons, List.length_cons, zero_mul, zero_add]
    rw [ih (acc * 256 + b.val), ih b.val]
    simp only [BN_bin2bn]
    ring

theorem bin2bn_cons (b : Byte) (l : List Byte) :
    BN_bin2bn (b :: l) = b.val * 256 ^ l.length + BN_bin2bn l := by
  have := bin2bn_foldl l b.val
  simpa [BN_bin2bn] using this

theorem bin2bn_ofFn : ∀ (n : Nat) (d : Fin n → Byte),
    BN_bin2bn (List.ofFn d) = ∑ i : Fin n, (d i).val * 256 ^ (n - 1 - i.val) := by
  intro n
  induction n with
  | zero => intro d; simp [BN_bin2bn]
  | succ n ih =>
    intro d
    rw [List.ofFn_succ, bin2bn_cons, List.length_ofFn, ih, Fin.sum_univ_succ]
    congr 1
    apply Finset.sum_congr rfl
    intro i _
    congr 2
    simp only [Fin.val_succ]
    omega

theorem bnBytesAux_eq : ∀ (fuel a : Nat) (acc : List Nat), a ≤ fuel →
    bnBytesAux fuel a acc = (Nat.digits 256 a).reverse ++ acc := by
  intro fuel
  induction fuel with
  | zero =>
    intro a acc ha
    have : a = 0 := by omega
    subst this
    simp [bnBytesAux]
  | succ n ih =>
    intro a acc ha
    unfold bnBytesAux
    by_cases h0 : a = 0
    · subst h0; simp
    · rw [if_neg h0, ih (a / 256) _ (by omega),
        Nat.digits_def' (by decide : 1 < 256) (Nat.pos_of_ne_zero h0)]
      simp

theorem bnBytes_eq (a : Nat) : bnBytes a = (Nat.digits 256 a).reverse := by
  simp [bnBytes, bnBytesAux_eq a a [] (le_refl a)]

theorem hexOfBytes_eq (l : List Nat) :
    hexOfBytes l = (l.map fun b => [hexDigit (b / 16), hexDigit (b % 16)]).flatten := by
  induction l with
  | nil => rfl
  | cons b rest ih => simp [hexOfBytes, ih]

theorem BN_bn2hex_eq_digits (a : Nat) : BN_bn2hex a = hexOfDigits a := by
  simp only [BN_bn2hex, hexOfDigits, bnBytes_eq, hexOfBytes_eq]

theorem charByte_hexDigit : ∀ d, d < 16 → charByte (hexDigit d) = spec_hex_code d := by
  decide

theorem BN_bn2hex_ascii (a : Nat) : (BN_bn2hex a).map charByte = spec_hex_ascii a := by
  rw [BN_bn2hex_eq_digits]
  unfold hexOfDigits spec_hex_ascii
  by_cases h0 : a = 0
  · rw [if_pos h0, if_pos h0]
    decide
  · rw [if_neg h0, if_neg h0, List.map_flatten, List.map_map]
    congr 1
    apply List.map_congr_left
    intro b hb
    have hlt : b < 256 := Nat.digits_lt_base (by decide) (List.mem_reverse.mp hb)
    simp only [Function.comp_apply, List.map_cons, List.map_nil]
    rw [charByte_hexDigit (b / 16) (by omega), charByte_hexDigit (b % 16) (by omega)]

theorem payload_ascii (f y : Nat) :
    (payload f y).map charByte = spec_hex_ascii f ++ spec_hex_ascii y := by
  simp only [payload, List.map_append, BN_bn2hex_ascii]

theorem hexDigit_inj : ∀ a, a < 16 → ∀ b, b < 16 → hexDigit a = hexDigit b → a = b := by
  decide

theorem hex_pair_inj {v w : Nat} (hv : v < 256) (hw : w < 256)
    (h1 : hexDigit (v / 16) = hexDigit (w / 16)) (h2 : hexDigit (v % 16) = hexDigit (w % 16)) :
    v = w := by
  have e1 := hexDigit_inj (v / 16) (by omega) (w / 16) (by omega) h1
  have e2 := hexDigit_inj (v % 16) (by omega) (w % 16) (by omega) h2
  omega

theorem hexOfBytes_length (l : List Nat) : (hexOfBytes l).length = 2 * l.length := by
  induction l with
  | nil => rfl
  | cons b rest ih => simp only [hexOfBytes, List.length_cons, ih]; omega

theorem hexOfBytes_inj : ∀ l1 l2 : List Nat, (∀ b ∈ l1, b < 256) → (∀ b ∈ l2, b < 256) →
    hexOfBytes l1 = hexOfBytes l2 → l1 = l2 := by
  intro l1
  induction l1 with
  | nil =>
    intro l2 _ _ h
    cases l2 with
    | nil => rfl
    | cons w ws => simp [hexOfBytes] at h
  | cons v vs ih =>
    intro l2 h1 h2 h
    cases l2 with
    | nil => simp [hexOfBytes] at h
    | cons w ws =>
      simp only [hexOfBytes, List.cons.injEq] at h
      obtain ⟨ha, hb, hc⟩ := h
      have hvw := hex_pair_inj (h1 v (List.mem_cons_self _ _)) (h2 w (List.mem_cons_self _ _)) ha hb
      have hrest := ih ws (fun b hb2 => h1 b (List.mem_cons_of_mem _ hb2))
        (fun b hb2 => h2 b (List.mem_cons_of_mem _ hb2)) hc
      rw [hvw, hrest]

theorem bnBytes_lt (a : Nat) : ∀ b ∈ bnBytes a, b < 256 := by
  intro b hb
  rw [bnBytes_eq, List.mem_reverse] at hb
  exact Nat.digits_lt_base (by decide) hb

theorem bnBytes_inj {a b : Nat} (h : bnBytes a = bnBytes b) : a = b := by
  rw [bnBytes_eq, bnBytes_eq] at h
  exact Nat.digits_inj_iff.mp (List.reverse_injective h)

theorem BN_bn2hex_length_nonzero {a : Nat} (ha : a ≠ 0) : (BN_bn2hex a).length ≠ 1 := by
  simp only [BN_bn2hex, if_neg ha, hexOfBytes_length]
  omega

theorem BN_bn2hex_inj {a b : Nat} (h : BN_bn2hex a = BN_bn2hex b) : a = b := by
  by_cases ha : a = 0
  · by_cases hb : b = 0
    · rw [ha, hb]
    · have := BN_bn2hex_length_nonzero hb
      rw [← h, ha] at this
      exact absurd rfl this
  · by_cases hb : b = 0
    · have := BN_bn2hex_length_nonzero ha
      rw [h, hb] at this
      exact absurd rfl this
    · simp only [BN_bn2hex, if_neg ha, if_neg hb] at h
      exact bnBytes_inj (hexOfBytes_inj _ _ (bnBytes_lt a) (bnBytes_lt b) h)

/-! ## Counting the modular exponentiations -/

theorem verify_one_counted_eq (SHA256 : HashFn) (p q g y : Nat) (pr : Proof) (calls : Nat) :
    verify_one_counted SHA256 p q g y pr calls = (verify_one SHA256 p q g y pr, calls + 2) := by
  simp only [verify_one_counted, verify_one, BN_mod_exp_counted]

theorem solo_fold_counted (SHA256 : HashFn) (p q g y : Nat) (proofs : List Proof) :
    ∀ st : Nat × Nat, proofs.foldl (solo_step_counted SHA256 p q g y) st =
      (st.1 + solo_failures SHA256 p q g y proofs, st.2 + 2 * proofs.length) := by
  induction proofs with
  | nil => intro st; simp [solo_failures]
  | cons pr rest ih =>
    intro st
    rw [List.foldl_cons, ih]
    simp only [solo_step_counted, verify_one_counted_eq, solo_failures, List.length_cons]
    by_cases hv : verify_one SHA256 p q g y pr = true
    · simp only [hv, if_true, List.filter_cons, Bool.not_true, Bool.false_eq_true,
        if_false, Prod.mk.injEq]
      exact ⟨trivial, by omega⟩
    · simp only [Bool.not_eq_true] at hv
      simp only [hv, Bool.false_eq_true, if_false, List.filter_cons, Bool.not_false,
        if_true, List.length_cons, Prod.mk.injEq]
      constructor <;> omega

/-! ## The accumulators in closed form -/

theorem batch_fold_from_closed {p q : Nat} (proofs : List Proof) :
    ∀ acc : Accum, acc.sum_r < q → acc.sum_c < q → acc.prod_f < p →
      batch_fold_from p q acc proofs =
        { sum_r := (acc.sum_r + (proofs.map Proof.r).sum) % q
          sum_c := (acc.sum_c + (proofs.map Proof.c).sum) % q
          prod_f := (acc.prod_f * (proofs.map Proof.f).prod) % p } := by
  induction proofs with
  | nil =>
    intro acc h1 h2 h3
    simp [batch_fold_from, Nat.mod_eq_of_lt h1, Nat.mod_eq_of_lt h2, Nat.mod_eq_of_lt h3]
  | cons pr rest ih =>
    intro acc h1 h2 h3
    have hq : 0 < q := by omega
    have hp : 0 < p := by omega
    have := ih (batch_step p q acc pr) (Nat.mod_lt _ hq) (Nat.mod_lt _ hq) (Nat.mod_lt _ hp)
    simp only [batch_fold_from, List.foldl_cons] at this ⊢
    rw [this]
    simp only [batch_step, BN_mod_add, BN_mod_mul, List.map_cons, List.sum_cons,
      List.prod_cons, Nat.mod_add_mod, Nat.mod_mul_mod, Nat.add_assoc, Nat.mul_assoc]

theorem batch_fold_closed {p q : Nat} (hp : 1 < p) (hq : 0 < q) (proofs : List Proof) :
    batch_fold p q proofs =
      { sum_r := (proofs.map Proof.r).sum % q
        sum_c := (proofs.map Proof.c).sum % q
        prod_f := (proofs.map Proof.f).prod % p } := by
  have := batch_fold_from_closed proofs accum_init (p := p) (q := q) hq hq hp
  simpa [batch_fold, accum_init] using this

/-! ## Order independence and the cached challenge -/

theorem batch_step_comm (p q : Nat) (acc : Accum) (a b : Proof) :
    batch_step p q (batch_step p q acc a) b = batch_step p q (batch_step p q acc b) a := by
  simp only [batch_step, BN_mod_add, BN_mod_mul, Nat.mod_add_mod, Nat.mod_mul_mod,
    Nat.add_right_comm _ a.r b.r, Nat.add_right_comm _ a.c b.c, Nat.mul_right_comm _ a.f b.f]

theorem batch_fold_single {p q : Nat} {f r c : Nat} (hf : f < p) (hr : r < q) (hc : c < q) :
    batch_fold p q [{ f := f, r := r, c := c }] = { sum_r := r, sum_c := c, prod_f := f } := by
  simp [batch_fold, batch_fold_from, batch_step, accum_init, BN_mod_add, BN_mod_mul,
    Nat.mod_eq_of_lt hf, Nat.mod_eq_of_lt hr, Nat.mod_eq_of_lt hc]

theorem exp_modEq_of_pow_modEq {g q p : Nat} (hq : 0 < q) (hg : g ^ q % p = 1)
    (hord : ∀ k, 0 < k → k < q → g ^ k % p ≠ 1) {a b : Nat} (h : g ^ a ≡ g ^ b [MOD p]) :
    a ≡ b [MOD q] := by
  have ha := pow_mod_order (q := q) hg a
  have hb := pow_mod_order (q := q) hg b
  exact exp_eq_of_pow_eq hg hord (Nat.mod_lt _ hq) (Nat.mod_lt _ hq)
    ((ha.trans h).trans hb.symm)

theorem key_pow_modEq (g x p k : Nat) : (g ^ x % p) ^ k ≡ g ^ (x * k) [MOD p] := by
  rw [pow_mul]
  exact Nat.ModEq.pow k (Nat.mod_modEq _ _)

theorem challenge_eq_of_both_valid {p q g x f r c c2 : Nat} (hq : Nat.Prime q)
    (hg : g ^ q % p = 1) (hord : ∀ k, 0 < k → k < q → g ^ k % p ≠ 1)
    (hx0 : 0 < x) (hxq : x < q) (hr : r < q) (hc : c < q) (hc2 : c2 < q)
    (h1 : g ^ r ≡ f * (g ^ x % p) ^ c [MOD p])
    (h2 : g ^ r ≡ f * (g ^ x % p) ^ c2 [MOD p]) : c = c2 := by
  have hone := pow_order_modEq hg
  have hfu : f * ((g ^ x % p) ^ c * g ^ (q - r)) ≡ 1 [MOD p] := by
    have e : f * ((g ^ x % p) ^ c * g ^ (q - r)) = (f * (g ^ x % p) ^ c) * g ^ (q - r) := by ring
    have e2 : g ^ r * g ^ (q - r) = g ^ q := by
      rw [← pow_add, show r + (q - r) = q by omega]
    rw [e]
    exact ((Nat.ModEq.mul_right _ h1.symm).trans (e2 ▸ Nat.ModEq.refl _)).trans hone
  have hY : (g ^ x % p) ^ c ≡ (g ^ x % p) ^ c2 [MOD p] := by
    have a1 : (f * ((g ^ x % p) ^ c * g ^ (q - r))) * (g ^ x % p) ^ c ≡
        1 * (g ^ x % p) ^ c [MOD p] := Nat.ModEq.mul_right _ hfu
    have a2 : (f * ((g ^ x % p) ^ c * g ^ (q - r))) * (g ^ x % p) ^ c2 ≡
        1 * (g ^ x % p) ^ c2 [MOD p] := Nat.ModEq.mul_right _ hfu
    have a3 : (f * ((g ^ x % p) ^ c * g ^ (q - r))) * (g ^ x % p) ^ c ≡
        (f * ((g ^ x % p) ^ c * g ^ (q - r))) * (g ^ x % p) ^ c2 [MOD p] := by
      have e3 : ∀ t : Nat, (f * ((g ^ x % p) ^ c * g ^ (q - r))) * t =
          ((g ^ x % p) ^ c * g ^ (q - r)) * (f * t) := by intro t; ring
      rw [e3, e3]
      exact Nat.ModEq.mul_left _ (h1.symm.trans h2)
    rw [one_mul] at a1 a2
    exact (a1.symm.trans a3).trans a2
  have hgpow : g ^ (x * c) ≡ g ^ (x * c2) [MOD p] :=
    ((key_pow_modEq g x p c).symm.trans hY).trans (key_pow_modEq g x p c2)
  have hmul : x * c ≡ x * c2 [MOD q] := exp_modEq_of_pow_modEq hq.pos hg hord hgpow
  have hcop : Nat.gcd q x = 1 := Nat.coprime_of_lt_prime hx0 hxq hq
  have hcc : c ≡ c2 [MOD q] := Nat.ModEq.cancel_left_of_coprime hcop hmul
  unfold Nat.ModEq at hcc
  rwa [Nat.mod_eq_of_lt hc, Nat.mod_eq_of_lt hc2] at hcc

theorem hash_challenge_lt (SHA256 : HashFn) (f y : Nat) {q : Nat} (hq : 0 < q) :
    hash_challenge SHA256 f y q < q := by
  simp only [hash_challenge, BN_mod]
  exact Nat.mod_lt _ hq

/-! ## Evaluating a power modulo a large modulus -/

theorem sqMulChain_eq (a m : Nat) : ∀ fuel e : Nat, e ≤ fuel → sqMulChain a m fuel e = a ^ e % m := by
  intro fuel
  induction fuel with
  | zero =>
    intro e he
    have : e = 0 := by omega
    subst this
    simp [sqMulChain]
  | succ n ih =>
    intro e he
    unfold sqMulChain
    by_cases h0 : e = 0
    · simp [h0]
    · rw [if_neg h0]
      have hrec := ih (e / 2) (by omega)
      simp only [hrec]
      have hsq : a ^ (e / 2) % m * (a ^ (e / 2) % m) % m = a ^ (2 * (e / 2)) % m := by
        rw [← Nat.mul_mod, ← pow_add, two_mul]
      by_cases hpar : e % 2 = 0
      · rw [if_pos hpar, hsq]
        congr 2
        omega
      · rw [if_neg hpar, hsq, Nat.mod_mul_mod, ← pow_succ]
        congr 2
        omega

theorem BN_mod_exp_eq_chain (a e m : Nat) : BN_mod_exp a e m = sqMulChain a m e e := by
  rw [sqMulChain_eq a m e e (le_refl e)]
  rfl

/-! ## Claims -/

/-- C1. Completeness of individual verification: when `g ^ q mod p = 1`, the
proof built by the generation loop for a key `x < q`, `y = g ^ x mod p` and an
ephemeral `s < q`, with any hash function, passes the individual check: the
loop body reports no failure, `g ^ r mod p = (f * (y ^ c' mod p)) mod p` for
the recomputed challenge `c'`, and the same equation holds for the cached `c`. -/
theorem C1_completeness (SHA256 : HashFn) (p q g x s : Nat)
    (hp : 1 < p) (hq : 0 < q) (hg : BN_mod_exp g q p = 1) (hx : x < q) (hs : s < q) :
    verify_one SHA256 p q g (BN_mod_exp g x p)
        (gen_proof SHA256 p q g x (BN_mod_exp g x p) s) = true ∧
      BN_mod_exp g (gen_proof SHA256 p q g x (BN_mod_exp g x p) s).r p =
        BN_mod_mul (gen_proof SHA256 p q g x (BN_mod_exp g x p) s).f
          (BN_mod_exp (BN_mod_exp g x p)
            (hash_challenge SHA256 (gen_proof SHA256 p q g x (BN_mod_exp g x p) s).f
              (BN_mod_exp g x p) q) p) p ∧
      BN_mod_exp g (gen_proof SHA256 p q g x (BN_mod_exp g x p) s).r p =
        BN_mod_mul (gen_proof SHA256 p q g x (BN_mod_exp g x p) s).f
          (BN_mod_exp (BN_mod_exp g x p)
            (gen_proof SHA256 p q g x (BN_mod_exp g x p) s).c p) p := by
  have hv := gen_proof_valid SHA256 (show g ^ q % p = 1 from hg) x s
  have he := (verify_one_iff SHA256 p q g (g ^ x % p) _).mp hv
  exact ⟨hv, he, he⟩

/-- C1 at `p = 23`, `q = 11`, `g = 2`, `x = 3`, `s = 5`. -/
theorem C1_completeness_witness :
    verify_one sumHash 23 11 2 (BN_mod_exp 2 3 23)
        (gen_proof sumHash 23 11 2 3 (BN_mod_exp 2 3 23) 5) = true ∧
      BN_mod_exp 2 (gen_proof sumHash 23 11 2 3 (BN_mod_exp 2 3 23) 5).r 23 =
        BN_mod_mul (gen_proof sumHash 23 11 2 3 (BN_mod_exp 2 3 23) 5).f
          (BN_mod_exp (BN_mod_exp 2 3 23)
            (hash_challenge sumHash (gen_proof sumHash 23 11 2 3 (BN_mod_exp 2 3 23) 5).f
              (BN_mod_exp 2 3 23) 11) 23) 23 ∧
      BN_mod_exp 2 (gen_proof sumHash 23 11 2 3 (BN_mod_exp 2 3 23) 5).r 23 =
        BN_mod_mul (gen_proof sumHash 23 11 2 3 (BN_mod_exp 2 3 23) 5).f
          (BN_mod_exp (BN_mod_exp 2 3 23)
            (gen_proof sumHash 23 11 2 3 (BN_mod_exp 2 3 23) 5).c 23) 23 :=
  C1_completeness sumHash 23 11 2 3 5 (by decide) (by decide) (by decide) (by decide) (by decide)

/-- C2. Individual validity implies batch validity: when `g ^ q mod p = 1` and
`y = g ^ x mod p`, every sequence of proofs that each satisfy
`g ^ r mod p = (f * (y ^ c mod p)) mod p` passes the batch check; in particular
so does every sequence of proofs built by the generation loop, none of which
fails the individual check. -/
theorem C2_individual_implies_batch (p q g x : Nat)
    (hp : 1 < p) (hq : 0 < q) (hg : BN_mod_exp g q p = 1) :
    (∀ proofs : List Proof,
        (∀ pr ∈ proofs, BN_mod_exp g pr.r p =
          BN_mod_mul pr.f (BN_mod_exp (BN_mod_exp g x p) pr.c p) p) →
        batch_pass p q g (BN_mod_exp g x p) proofs = true) ∧
      (∀ (SHA256 : HashFn) (ss : List Nat),
        solo_failures SHA256 p q g (BN_mod_exp g x p)
            (gen_proofs SHA256 p q g x (BN_mod_exp g x p) ss) = 0 ∧
          batch_pass p q g (BN_mod_exp g x p)
            (gen_proofs SHA256 p q g x (BN_mod_exp g x p) ss) = true) := by
  have hg1 : g ^ q % p = 1 := hg
  refine ⟨fun proofs hall => batch_pass_of_all_valid hg1 x proofs hall, fun SHA256 ss => ⟨?_, ?_⟩⟩
  · simp only [solo_failures, gen_proofs, List.length_eq_zero, List.filter_eq_nil_iff,
      List.mem_map, forall_exists_index, and_imp]
    rintro pr s _ rfl
    have := gen_proof_valid SHA256 hg1 x s
    simp only [BN_mod_exp] at this ⊢
    simp [this]
  · apply batch_pass_of_all_valid hg1 x
    simp only [gen_proofs, List.mem_map, forall_exists_index, and_imp]
    rintro pr s _ rfl
    exact gen_proof_cached_eq SHA256 hg1 x s

/-- C2 at `p = 23`, `q = 11`, `g = 2`, `x = 3`, for two proofs that satisfy the
individual equation and for two generated proofs. -/
theorem C2_individual_implies_batch_witness :
    batch_pass 23 11 2 (BN_mod_exp 2 3 23) [⟨9, 7, 8⟩, ⟨13, 9, 8⟩] = true ∧
      batch_pass 23 11 2 (BN_mod_exp 2 3 23)
        (gen_proofs sumHash 23 11 2 3 (BN_mod_exp 2 3 23) [5, 7]) = true :=
  ⟨(C2_individual_implies_batch 23 11 2 3 (by decide) (by decide) (by decide)).1
      [⟨9, 7, 8⟩, ⟨13, 9, 8⟩] (by decide),
    ((C2_individual_implies_batch 23 11 2 3 (by decide) (by decide) (by decide)).2
      sumHash [5, 7]).2⟩

/-- C3. The hard-coded parameters satisfy the group invariant: `Q_DEC` divides
`P_DEC - 1` and `G_INT ^ Q_DEC mod P_DEC = 1`. -/
theorem C3_group_parameters :
    Q_DEC ∣ P_DEC - 1 ∧ BN_mod_exp G_INT Q_DEC P_DEC = 1 := by
  constructor
  · exact ⟨18, by decide⟩
  · rw [BN_mod_exp_eq_chain]
    set_option maxRecDepth 100000 in decide

/-- C4. Batch cancellation attack: for `g` of exact order `q` modulo `p`, a key
`x < q` with `y = g ^ x mod p`, two generated proofs and any `0 < d < q`, the
proofs with responses `(r1 + d) mod q` and `(r2 + q - d) mod q` each fail the
individual check while the batch check over the two of them returns true. -/
theorem C4_batch_cancellation (SHA256 : HashFn) (p q g x s1 s2 d : Nat)
    (hp : 1 < p) (hq : Nat.Prime q) (hg : BN_mod_exp g q p = 1)
    (hord : ∀ k, 0 < k → k < q → BN_mod_exp g k p ≠ 1)
    (hx : x < q) (hs1 : s1 < q) (hs2 : s2 < q) (hd0 : 0 < d) (hdq : d < q) :
    verify_one SHA256 p q g (BN_mod_exp g x p)
        ((gen_proof SHA256 p q g x (BN_mod_exp g x p) s1).with_r
          (((gen_proof SHA256 p q g x (BN_mod_exp g x p) s1).r + d) % q)) = false ∧
      verify_one SHA256 p q g (BN_mod_exp g x p)
        ((gen_proof SHA256 p q g x (BN_mod_exp g x p) s2).with_r
          (((gen_proof SHA256 p q g x (BN_mod_exp g x p) s2).r + q - d) % q)) = false ∧
      batch_pass p q g (BN_mod_exp g x p)
        [(gen_proof SHA256 p q g x (BN_mod_exp g x p) s1).with_r
            (((gen_proof SHA256 p q g x (BN_mod_exp g x p) s1).r + d) % q),
          (gen_proof SHA256 p q g x (BN_mod_exp g x p) s2).with_r
            (((gen_proof SHA256 p q g x (BN_mod_exp g x p) s2).r + q - d) % q)] = true := by
  have hq0 : 0 < q := hq.pos
  have hg1 : g ^ q % p = 1 := hg
  have hord1 : ∀ k, 0 < k → k < q → g ^ k % p ≠ 1 := hord
  simp only [BN_mod_exp]
  have hr1 := gen_proof_r_lt SHA256 hq0 p g x (g ^ x % p) s1
  have hr2 := gen_proof_r_lt SHA256 hq0 p g x (g ^ x % p) s2
  refine ⟨?_, ?_, ?_⟩
  · exact verify_with_r_false SHA256 hq0 hg1 hord1 x s1 (Nat.mod_lt _ hq0)
      (shift_mod_ne hr1 hd0 hdq)
  · apply verify_with_r_false SHA256 hq0 hg1 hord1 x s2 (Nat.mod_lt _ hq0)
    rw [Nat.add_sub_assoc (le_of_lt hdq)]
    exact shift_mod_ne hr2 (by omega) (by omega)
  · have hhonest : batch_pass p q g (g ^ x % p)
        [gen_proof SHA256 p q g x (g ^ x % p) s1, gen_proof SHA256 p q g x (g ^ x % p) s2] =
          true := by
      apply batch_pass_of_all_valid hg1 x
      intro pr hpr
      simp only [List.mem_cons, List.mem_singleton, List.not_mem_nil, or_false] at hpr
      rcases hpr with rfl | rfl
      · exact gen_proof_cached_eq SHA256 hg1 x s1
      · exact gen_proof_cached_eq SHA256 hg1 x s2
    rw [batch_pass_iff, batch_fold_pair] at hhonest ⊢
    simp only [Proof.with_r]
    have hsum : (((gen_proof SHA256 p q g x (g ^ x % p) s1).r + d) % q +
        ((gen_proof SHA256 p q g x (g ^ x % p) s2).r + q - d) % q) % q =
        ((gen_proof SHA256 p q g x (g ^ x % p) s1).r +
          (gen_proof SHA256 p q g x (g ^ x % p) s2).r) % q := by
      rw [← Nat.add_mod]
      have : (gen_proof SHA256 p q g x (g ^ x % p) s1).r + d +
          ((gen_proof SHA256 p q g x (g ^ x % p) s2).r + q - d) =
          (gen_proof SHA256 p q g x (g ^ x % p) s1).r +
            (gen_proof SHA256 p q g x (g ^ x % p) s2).r + q := by omega
      rw [this, Nat.add_mod_right]
    rw [hsum]
    exact hhonest

/-- C4 at `p = 23`, `q = 11`, `g = 2`, `x = 3`, `s1 = 5`, `s2 = 7`, `d = 4`. -/
theorem C4_batch_cancellation_witness :
    verify_one sumHash 23 11 2 (BN_mod_exp 2 3 23)
        ((gen_proof sumHash 23 11 2 3 (BN_mod_exp 2 3 23) 5).with_r
          (((gen_proof sumHash 23 11 2 3 (BN_mod_exp 2 3 23) 5).r + 4) % 11)) = false ∧
      verify_one sumHash 23 11 2 (BN_mod_exp 2 3 23)
        ((gen_proof sumHash 23 11 2 3 (BN_mod_exp 2 3 23) 7).with_r
          (((gen_proof sumHash 23 11 2 3 (BN_mod_exp 2 3 23) 7).r + 11 - 4) % 11)) = false ∧
      batch_pass 23 11 2 (BN_mod_exp 2 3 23)
        [(gen_proof sumHash 23 11 2 3 (BN_mod_exp 2 3 23) 5).with_r
            (((gen_proof sumHash 23 11 2 3 (BN_mod_exp 2 3 23) 5).r + 4) % 11),
          (gen_proof sumHash 23 11 2 3 (BN_mod_exp 2 3 23) 7).with_r
            (((gen_proof sumHash 23 11 2 3 (BN_mod_exp 2 3 23) 7).r + 11 - 4) % 11)] = true :=
  C4_batch_cancellation sumHash 23 11 2 3 5 7 4 (by decide) (by norm_num) (by decide)
    (by intro k h0 hk; interval_cases k <;> decide)
    (by decide) (by decide) (by decide) (by decide) (by decide)

/-- C5. Individual verification never reads the cached challenge: two proofs
with the same `f` and the same `r` get the same verdict from the individual
check, whatever their fields `c` are, for every `p`, `q`, `g`, `y` and hash. -/
theorem C5_cached_challenge_unused (SHA256 : HashFn) (p q g y : Nat) (pr1 pr2 : Proof)
    (hf : pr1.f = pr2.f) (hr : pr1.r = pr2.r) :
    verify_one SHA256 p q g y pr1 = verify_one SHA256 p q g y pr2 := by
  simp only [verify_one, hf, hr]

/-- C5 at two proofs that differ in the cached challenge only. -/
theorem C5_cached_challenge_unused_witness :
    verify_one sumHash 23 11 2 8 ⟨9, 7, 8⟩ = verify_one sumHash 23 11 2 8 ⟨9, 7, 3⟩ :=
  C5_cached_challenge_unused sumHash 23 11 2 8 ⟨9, 7, 8⟩ ⟨9, 7, 3⟩ rfl rfl

/-- C6. Unit soundness for the response: for `g` of exact order `q` modulo `p`,
a key `x < q` with `y = g ^ x mod p` and a generated proof `(f, r, c)`, the
individual check fails on `(f, r2, c)` for every `r2 < q` other than `r`. -/
theorem C6_response_soundness (SHA256 : HashFn) (p q g x s r2 : Nat)
    (hp : 1 < p) (hq : 0 < q) (hg : BN_mod_exp g q p = 1)
    (hord : ∀ k, 0 < k → k < q → BN_mod_exp g k p ≠ 1)
    (hx : x < q) (hs : s < q) (hr2 : r2 < q)
    (hne : r2 ≠ (gen_proof SHA256 p q g x (BN_mod_exp g x p) s).r) :
    verify_one SHA256 p q g (BN_mod_exp g x p)
      ((gen_proof SHA256 p q g x (BN_mod_exp g x p) s).with_r r2) = false :=
  verify_with_r_false SHA256 hq hg hord x s hr2 hne

/-- C6 at `p = 23`, `q = 11`, `g = 2`, `x = 3`, `s = 5` (where `r = 7`) and
`r2 = 6`. -/
theorem C6_response_soundness_witness :
    verify_one sumHash 23 11 2 (BN_mod_exp 2 3 23)
      ((gen_proof sumHash 23 11 2 3 (BN_mod_exp 2 3 23) 5).with_r 6) = false :=
  C6_response_soundness sumHash 23 11 2 3 5 6 (by decide) (by decide) (by decide)
    (by intro k h0 hk; interval_cases k <;> decide)
    (by decide) (by decide) (by decide) (by decide)

/-- C7, as stated, fails: at `p = 23`, `q = 11`, `g = 2` (of exact order 11),
`x = 3`, `s = 5` the generated proof has `c = 8`, and the individual check
accepts the proof whose cached challenge is replaced by `3`; with any hash
function it accepts the proof whose cached challenge is replaced by
`(c + 1) mod 11`, which is below `11` and differs from `c`. -/
theorem C7_challenge_mutation_accepted :
    (BN_mod_exp 2 11 23 = 1 ∧ (∀ k, 0 < k → k < 11 → BN_mod_exp 2 k 23 ≠ 1) ∧
      (gen_proof sumHash 23 11 2 3 (BN_mod_exp 2 3 23) 5).c = 8 ∧
      verify_one sumHash 23 11 2 (BN_mod_exp 2 3 23)
        ((gen_proof sumHash 23 11 2 3 (BN_mod_exp 2 3 23) 5).with_c 3) = true) ∧
    ¬ ∃ SHA256 : HashFn,
      verify_one SHA256 23 11 2 (BN_mod_exp 2 3 23)
        ((gen_proof SHA256 23 11 2 3 (BN_mod_exp 2 3 23) 5).with_c
          (((gen_proof SHA256 23 11 2 3 (BN_mod_exp 2 3 23) 5).c + 1) % 11)) = false := by
  refine ⟨⟨by decide, by intro k h0 hk; interval_cases k <;> decide, by decide, by decide⟩, ?_⟩
  rintro ⟨SHA256, h⟩
  have hv := gen_proof_valid SHA256 (show 2 ^ 11 % 23 = 1 by decide) 3 5
  simp only [verify_one, Proof.with_c, BN_mod_exp] at h hv
  rw [hv] at h
  exact Bool.noConfusion h

/-- C7, amended. For every `p`, `q`, `g` with `g ^ q mod p = 1`, every key `x`
with `y = g ^ x mod p`, every generated proof `(f, r, c)` and every `c2`, the
individual check on `(f, r, c2)` returns true: it recomputes the challenge from
`f` and `y` and gives the verdict it gives on `(f, r, c)`. -/
theorem C7_challenge_mutation_amended (SHA256 : HashFn) (p q g x s c2 : Nat)
    (hp : 1 < p) (hq : 0 < q) (hg : BN_mod_exp g q p = 1)
    (hx : x < q) (hs : s < q) (hc2 : c2 < q)
    (hne : c2 ≠ (gen_proof SHA256 p q g x (BN_mod_exp g x p) s).c) :
    verify_one SHA256 p q g (BN_mod_exp g x p)
        ((gen_proof SHA256 p q g x (BN_mod_exp g x p) s).with_c c2) = true ∧
      verify_one SHA256 p q g (BN_mod_exp g x p)
          ((gen_proof SHA256 p q g x (BN_mod_exp g x p) s).with_c c2) =
        verify_one SHA256 p q g (BN_mod_exp g x p)
          (gen_proof SHA256 p q g x (BN_mod_exp g x p) s) := by
  have hv := gen_proof_valid SHA256 (show g ^ q % p = 1 from hg) x s
  have hsame : verify_one SHA256 p q g (BN_mod_exp g x p)
      ((gen_proof SHA256 p q g x (BN_mod_exp g x p) s).with_c c2) =
      verify_one SHA256 p q g (BN_mod_exp g x p)
        (gen_proof SHA256 p q g x (BN_mod_exp g x p) s) := by
    simp only [verify_one, Proof.with_c]
  exact ⟨hsame.trans hv, hsame⟩

/-- C7, amended, at `p = 23`, `q = 11`, `g = 2`, `x = 3`, `s = 5`, `c2 = 3`. -/
theorem C7_challenge_mutation_amended_witness :
    verify_one sumHash 23 11 2 (BN_mod_exp 2 3 23)
        ((gen_proof sumHash 23 11 2 3 (BN_mod_exp 2 3 23) 5).with_c 3) = true ∧
      verify_one sumHash 23 11 2 (BN_mod_exp 2 3 23)
          ((gen_proof sumHash 23 11 2 3 (BN_mod_exp 2 3 23) 5).with_c 3) =
        verify_one sumHash 23 11 2 (BN_mod_exp 2 3 23)
          (gen_proof sumHash 23 11 2 3 (BN_mod_exp 2 3 23) 5) :=
  C7_challenge_mutation_amended sumHash 23 11 2 3 5 3 (by decide) (by decide) (by decide)
    (by decide) (by decide) (by decide) (by decide)

/-- C8. Empty batch: for `p > 0` and `q > 0` the batch loop over no proofs
leaves `sum_r = 0`, `sum_c = 0`, `prod_f = 1`, the two sides
`g ^ 0 mod p` and `(1 * (y ^ 0 mod p)) mod p` agree, and the batch check
returns true. -/
theorem C8_empty_batch (p q g y : Nat) (hp : 0 < p) (hq : 0 < q) :
    batch_fold p q [] = { sum_r := 0, sum_c := 0, prod_f := 1 } ∧
      BN_mod_exp g 0 p = BN_mod_mul 1 (BN_mod_exp y 0 p) p ∧
      batch_pass p q g y [] = true := by
  refine ⟨rfl, ?_, ?_⟩
  · simp [BN_mod_exp, BN_mod_mul]
  · rw [batch_pass_iff]
    simp [batch_fold, batch_fold_from, accum_init]

/-- C8 at the hard-coded parameters, with `y = 5`. -/
theorem C8_empty_batch_witness :
    batch_fold P_DEC Q_DEC [] = { sum_r := 0, sum_c := 0, prod_f := 1 } ∧
      BN_mod_exp G_INT 0 P_DEC = BN_mod_mul 1 (BN_mod_exp 5 0 P_DEC) P_DEC ∧
      batch_pass P_DEC Q_DEC G_INT 5 [] = true :=
  C8_empty_batch P_DEC Q_DEC G_INT 5 (by decide) (by decide)

/-- C9. `hash_challenge` equals its reference definition: the bytes it hashes
are the ASCII string `hex(f) ++ hex(y)` (upper-case digits, codes `48` to `57`
and `65` to `70`, two for every byte of the minimal big-endian byte string, the
one digit `0` for zero), and for `q > 0` its result is `N mod q`, where `N` is
the digest of that string read as a big-endian unsigned integer. Hence the
result is below `q`, and two calls whose arguments have the same ASCII string,
in particular two calls with the same `(f, y, q)`, return the same value. -/
theorem C9_hash_challenge_reference (SHA256 : HashFn) (f y q : Nat) (hq : 0 < q) :
    (payload f y).map charByte = spec_hex_ascii f ++ spec_hex_ascii y ∧
      hash_challenge SHA256 f y q = spec_challenge SHA256 f y q ∧
      hash_challenge SHA256 f y q < q ∧
      (∀ f2 y2 : Nat,
        spec_hex_ascii f2 ++ spec_hex_ascii y2 = spec_hex_ascii f ++ spec_hex_ascii y →
        hash_challenge SHA256 f2 y2 q = hash_challenge SHA256 f y q) := by
  have href : ∀ a b : Nat, hash_challenge SHA256 a b q = spec_challenge SHA256 a b q := by
    intro a b
    simp only [hash_challenge, spec_challenge, spec_digest_value, BN_mod, payload_ascii,
      bin2bn_ofFn]
  refine ⟨payload_ascii f y, href f y, ?_, ?_⟩
  · simp only [hash_challenge, BN_mod]
    exact Nat.mod_lt _ hq
  · intro f2 y2 h
    rw [href f2 y2, href f y]
    simp only [spec_challenge, h]

/-- C9 at `f = 171` (`AB`), `y = 2748` (`0ABC`), `q = 11` with the stand-in
hash: the reference string is `AB0ABC`, the bytes `65 66 48 65 66 67`. -/
theorem C9_hash_challenge_reference_witness :
    spec_hex_ascii 171 ++ spec_hex_ascii 2748 = [65, 66, 48, 65, 66, 67] ∧
      hash_challenge sumHash 171 2748 11 = spec_challenge sumHash 171 2748 11 ∧
      hash_challenge sumHash 171 2748 11 < 11 :=
  ⟨(C9_hash_challenge_reference sumHash 171 2748 11 (by decide)).1.symm.trans (by decide),
    (C9_hash_challenge_reference sumHash 171 2748 11 (by decide)).2.1,
    (C9_hash_challenge_reference sumHash 171 2748 11 (by decide)).2.2.1⟩

/-- C10, as stated, fails: the pairs `(1, 257)` and `(257, 1)` of elements below
`P_DEC` are distinct and both have the payload `"010101"`. -/
theorem C10_payload_collision :
    1 < P_DEC ∧ 257 < P_DEC ∧ ((1 : Nat), (257 : Nat)) ≠ ((257 : Nat), (1 : Nat)) ∧
      payload 1 257 = ['0', '1', '0', '1', '0', '1'] ∧
      payload 257 1 = ['0', '1', '0', '1', '0', '1'] ∧
      payload 1 257 = payload 257 1 := by
  decide

/-- C10, amended. The payload map `(f, y) ↦ hex(f) ++ hex(y)` is injective on
pairs whose first components have renderings of the same length, and on pairs
with the same second component: two distinct pairs `(f, y)`, `(f2, y2)` for
which `hex(f)` and `hex(f2)` have the same length, or for which `y = y2`, never
produce the same payload. This holds for all natural numbers, so for the
elements below `P_DEC`. -/
theorem C10_payload_injective_amended (f y f2 y2 : Nat)
    (hlen : (BN_bn2hex f).length = (BN_bn2hex f2).length ∨ y = y2)
    (hne : (f, y) ≠ (f2, y2)) : payload f y ≠ payload f2 y2 := by
  intro h
  simp only [payload] at h
  have hl : (BN_bn2hex f).length = (BN_bn2hex f2).length := by
    rcases hlen with hl | hy
    · exact hl
    · have := congrArg List.length h
      rw [hy] at this
      simp only [List.length_append] at this
      omega
  obtain ⟨h1, h2⟩ := List.append_inj h hl
  exact hne (Prod.ext (BN_bn2hex_inj h1) (BN_bn2hex_inj h2))

/-- C10, amended, at `(1, 257)` against `(2, 1)`, whose first components both
render as two digits, and at `(1, 257)` against `(257, 257)`, which share the
second component. -/
theorem C10_payload_injective_amended_witness :
    payload 1 257 ≠ payload 2 1 ∧ payload 1 257 ≠ payload 257 257 :=
  ⟨C10_payload_injective_amended 1 257 2 1 (Or.inl (by decide)) (by decide),
    C10_payload_injective_amended 1 257 257 257 (Or.inr rfl) (by decide)⟩

/-- C11. With the calls to the modular exponentiation counted, the batch phase
makes exactly two of them for every number of proofs and the individual
verification loop exactly `2 * N` for `N` proofs; the counting versions return
the batch verdict and the number of failures of the plain ones. -/
theorem C11_exponentiation_counts (SHA256 : HashFn) (p q g y : Nat) (proofs : List Proof) :
    (batch_counted p q g y proofs).2 = 2 ∧
      (solo_loop_counted SHA256 p q g y proofs).2 = 2 * proofs.length ∧
      (batch_counted p q g y proofs).1 = batch_pass p q g y proofs ∧
      (solo_loop_counted SHA256 p q g y proofs).1 = solo_failures SHA256 p q g y proofs := by
  refine ⟨rfl, ?_, rfl, ?_⟩
  · simp [solo_loop_counted, solo_fold_counted]
  · simp [solo_loop_counted, solo_fold_counted]

/-- C12, evaluated on the constant: `(P_DEC - 1) / 2` is `9 * Q_DEC`, divisible
by `3`, hence not prime, so `P_DEC` is not a safe prime. -/
theorem C12_half_not_prime :
    (P_DEC - 1) / 2 = 9 * Q_DEC ∧ 3 ∣ (P_DEC - 1) / 2 ∧ ¬ Nat.Prime ((P_DEC - 1) / 2) := by
  have h1 : (P_DEC - 1) / 2 = 9 * Q_DEC := by decide
  have h2 : 3 ∣ (P_DEC - 1) / 2 := ⟨3 * Q_DEC, by decide⟩
  refine ⟨h1, h2, fun hprime => ?_⟩
  rcases (Nat.dvd_prime hprime).mp h2 with h | h
  · exact absurd h (by decide)
  · exact absurd h (by decide)

/-- C13. The batch loop computes the reference aggregates: for `p > 1` and
`q > 0`, after the loop `sum_r` is the sum of all `r` modulo `q`, `sum_c` the
sum of all `c` modulo `q`, `prod_f` the product of all `f` modulo `p`, and the
batch verdict is true exactly when
`g ^ sum_r mod p = (prod_f * (y ^ sum_c mod p)) mod p`. -/
theorem C13_batch_fold_reference (p q g y : Nat) (proofs : List Proof)
    (hp : 1 < p) (hq : 0 < q) :
    (batch_fold p q proofs).sum_r = (proofs.map Proof.r).sum % q ∧
      (batch_fold p q proofs).sum_c = (proofs.map Proof.c).sum % q ∧
      (batch_fold p q proofs).prod_f = (proofs.map Proof.f).prod % p ∧
      (batch_pass p q g y proofs = true ↔
        g ^ ((proofs.map Proof.r).sum % q) % p =
          ((proofs.map Proof.f).prod % p * (y ^ ((proofs.map Proof.c).sum % q) % p)) % p) := by
  have h := batch_fold_closed hp hq proofs
  refine ⟨by rw [h], by rw [h], by rw [h], ?_⟩
  rw [batch_pass_iff, h]

/-- C13 at `p = 23`, `q = 11`, `g = 2`, `y = 8` and three proofs. -/
theorem C13_batch_fold_reference_witness :
    (batch_fold 23 11 [⟨9, 7, 8⟩, ⟨13, 9, 8⟩, ⟨20, 10, 6⟩]).sum_r = (7 + 9 + 10) % 11 ∧
      (batch_fold 23 11 [⟨9, 7, 8⟩, ⟨13, 9, 8⟩, ⟨20, 10, 6⟩]).prod_f = (9 * 13 * 20) % 23 :=
  ⟨by simpa using (C13_batch_fold_reference 23 11 2 8 [⟨9, 7, 8⟩, ⟨13, 9, 8⟩, ⟨20, 10, 6⟩]
      (by decide) (by decide)).1,
    by simpa using (C13_batch_fold_reference 23 11 2 8 [⟨9, 7, 8⟩, ⟨13, 9, 8⟩, ⟨20, 10, 6⟩]
      (by decide) (by decide)).2.2.1⟩

/-- C14. The generated proof matches the data model: for `p > 0`, `q > 0`,
`x < q`, `s < q` and any `y`, the generation step returns `f = g ^ s mod p`,
`c = hash_challenge(f, y, q)` and `r = (s + c * x) mod q`, which is what the
two-step computation `((c * x) mod q + s) mod q` gives, with `f < p`, `c < q`
and `r < q`. -/
theorem C14_generated_fields (SHA256 : HashFn) (p q g x y s : Nat)
    (hp : 0 < p) (hq : 0 < q) (hx : x < q) (hs : s < q) (hy : y = BN_mod_exp g x p) :
    (gen_proof SHA256 p q g x y s).f = g ^ s % p ∧
      (gen_proof SHA256 p q g x y s).c = hash_challenge SHA256 (g ^ s % p) y q ∧
      (gen_proof SHA256 p q g x y s).r =
        (s + hash_challenge SHA256 (g ^ s % p) y q * x) % q ∧
      ((hash_challenge SHA256 (g ^ s % p) y q * x) % q + s) % q =
        (s + hash_challenge SHA256 (g ^ s % p) y q * x) % q ∧
      (gen_proof SHA256 p q g x y s).f < p ∧
      (gen_proof SHA256 p q g x y s).c < q ∧
      (gen_proof SHA256 p q g x y s).r < q := by
  have hstep : ((hash_challenge SHA256 (g ^ s % p) y q * x) % q + s) % q =
      (s + hash_challenge SHA256 (g ^ s % p) y q * x) % q := by
    rw [Nat.mod_add_mod, Nat.add_comm]
  refine ⟨rfl, rfl, ?_, hstep, ?_, ?_, ?_⟩
  · simp only [gen_proof, BN_mod_exp, BN_mod_mul, BN_mod_add]
    exact hstep
  · simp only [gen_proof, BN_mod_exp]
    exact Nat.mod_lt _ hp
  · simp only [gen_proof]
    exact hash_challenge_lt SHA256 _ _ hq
  · exact gen_proof_r_lt SHA256 hq p g x y s

/-- C14 at `p = 23`, `q = 11`, `g = 2`, `x = 3`, `s = 5`. -/
theorem C14_generated_fields_witness :
    (gen_proof sumHash 23 11 2 3 8 5).f = 2 ^ 5 % 23 ∧
      (gen_proof sumHash 23 11 2 3 8 5).c = hash_challenge sumHash (2 ^ 5 % 23) 8 11 ∧
      (gen_proof sumHash 23 11 2 3 8 5).r =
        (5 + hash_challenge sumHash (2 ^ 5 % 23) 8 11 * 3) % 11 ∧
      ((hash_challenge sumHash (2 ^ 5 % 23) 8 11 * 3) % 11 + 5) % 11 =
        (5 + hash_challenge sumHash (2 ^ 5 % 23) 8 11 * 3) % 11 ∧
      (gen_proof sumHash 23 11 2 3 8 5).f < 23 ∧
      (gen_proof sumHash 23 11 2 3 8 5).c < 11 ∧
      (gen_proof sumHash 23 11 2 3 8 5).r < 11 :=
  C14_generated_fields sumHash 23 11 2 3 8 5 (by decide) (by decide) (by decide) (by decide)
    (by decide)

/-- C15. Shard combination: for `p > 1` and `q > 0`, the accumulators of the
batch loop over `A ++ B` are those of the loops over `A` and over `B`, each run
from `(0, 0, 1)`, combined by addition modulo `q`, addition modulo `q` and
multiplication modulo `p`. -/
theorem C15_shard_combination (p q : Nat) (A B : List Proof) (hp : 1 < p) (hq : 0 < q) :
    batch_fold p q (A ++ B) =
      { sum_r := BN_mod_add (batch_fold p q A).sum_r (batch_fold p q B).sum_r q
        sum_c := BN_mod_add (batch_fold p q A).sum_c (batch_fold p q B).sum_c q
        prod_f := BN_mod_mul (batch_fold p q A).prod_f (batch_fold p q B).prod_f p } := by
  rw [batch_fold_closed hp hq (A ++ B), batch_fold_closed hp hq A, batch_fold_closed hp hq B]
  simp only [BN_mod_add, BN_mod_mul, List.map_append, List.sum_append, List.prod_append,
    ← Nat.add_mod, ← Nat.mul_mod]

/-- C15 at `p = 23`, `q = 11` with shards of two proofs and of one proof. -/
theorem C15_shard_combination_witness :
    batch_fold 23 11 ([⟨9, 7, 8⟩, ⟨13, 9, 8⟩] ++ [⟨20, 10, 6⟩]) =
      { sum_r := BN_mod_add (batch_fold 23 11 [⟨9, 7, 8⟩, ⟨13, 9, 8⟩]).sum_r
          (batch_fold 23 11 [⟨20, 10, 6⟩]).sum_r 11
        sum_c := BN_mod_add (batch_fold 23 11 [⟨9, 7, 8⟩, ⟨13, 9, 8⟩]).sum_c
          (batch_fold 23 11 [⟨20, 10, 6⟩]).sum_c 11
        prod_f := BN_mod_mul (batch_fold 23 11 [⟨9, 7, 8⟩, ⟨13, 9, 8⟩]).prod_f
          (batch_fold 23 11 [⟨20, 10, 6⟩]).prod_f 23 } :=
  C15_shard_combination 23 11 [⟨9, 7, 8⟩, ⟨13, 9, 8⟩] [⟨20, 10, 6⟩] (by decide) (by decide)

/-- C16. Order independence: for `p > 0` and `q > 0`, two sequences of proofs
that are permutations of each other give the same accumulators and the same
batch verdict. -/
theorem C16_order_independence (p q g y : Nat) (l1 l2 : List Proof)
    (hp : 0 < p) (hq : 0 < q) (hperm : List.Perm l1 l2) :
    batch_fold p q l1 = batch_fold p q l2 ∧
      batch_pass p q g y l1 = batch_pass p q g y l2 := by
  have hfold : batch_fold p q l1 = batch_fold p q l2 :=
    hperm.foldl_eq' (fun a _ b _ acc => batch_step_comm p q acc a b) accum_init
  refine ⟨hfold, ?_⟩
  simp only [batch_pass, hfold]

/-- C16 at `p = 23`, `q = 11`, `g = 2`, `y = 8` for a sequence of three proofs
and the sequence with its first two swapped. -/
theorem C16_order_independence_witness :
    batch_fold 23 11 [⟨13, 9, 8⟩, ⟨9, 7, 8⟩, ⟨20, 10, 6⟩] =
        batch_fold 23 11 [⟨9, 7, 8⟩, ⟨13, 9, 8⟩, ⟨20, 10, 6⟩] ∧
      batch_pass 23 11 2 8 [⟨13, 9, 8⟩, ⟨9, 7, 8⟩, ⟨20, 10, 6⟩] =
        batch_pass 23 11 2 8 [⟨9, 7, 8⟩, ⟨13, 9, 8⟩, ⟨20, 10, 6⟩] :=
  C16_order_independence 23 11 2 8 _ _ (by decide) (by decide)
    (List.Perm.swap (⟨9, 7, 8⟩ : Proof) ⟨13, 9, 8⟩ [⟨20, 10, 6⟩])

/-- C17. The batch check trusts the cached challenge: for prime `q`, `g` of
exact order `q` modulo `p`, a key `0 < x < q` with `y = g ^ x mod p`, and a
triple `(f, r, c)` with `f < p`, `r < q`, `c < q`,
`g ^ r mod p = (f * y ^ c) mod p` and `c` different from
`hash_challenge(f, y, q)`, the batch check over the one proof `(f, r, c)`
returns true and the individual check on it returns false. -/
theorem C17_batch_trusts_cached_challenge (SHA256 : HashFn) (p q g x f r c : Nat)
    (hp : 1 < p) (hq : Nat.Prime q) (hg : BN_mod_exp g q p = 1)
    (hord : ∀ k, 0 < k → k < q → BN_mod_exp g k p ≠ 1)
    (hx0 : 0 < x) (hxq : x < q) (hf : f < p) (hr : r < q) (hc : c < q)
    (heq : BN_mod_exp g r p = (f * (BN_mod_exp g x p) ^ c) % p)
    (hne : c ≠ hash_challenge SHA256 f (BN_mod_exp g x p) q) :
    batch_pass p q g (BN_mod_exp g x p) [{ f := f, r := r, c := c }] = true ∧
      verify_one SHA256 p q g (BN_mod_exp g x p) { f := f, r := r, c := c } = false := by
  have hg1 : g ^ q % p = 1 := hg
  have hord1 : ∀ k, 0 < k → k < q → g ^ k % p ≠ 1 := hord
  simp only [BN_mod_exp] at heq hne ⊢
  have h1 : g ^ r ≡ f * (g ^ x % p) ^ c [MOD p] := by
    unfold Nat.ModEq
    exact heq
  constructor
  · rw [batch_pass_iff, batch_fold_single hf hr hc]
    simp only [Nat.mul_mod_mod]
    exact heq
  · rw [Bool.eq_false_iff]
    intro hv
    rw [verify_one_iff] at hv
    simp only [Nat.mul_mod_mod] at hv
    exact hne (challenge_eq_of_both_valid hq hg1 hord1 hx0 hxq hr hc
      (hash_challenge_lt SHA256 _ _ hq.pos) h1 hv)

/-- C17 at `p = 23`, `q = 11`, `g = 2`, `x = 3` and the triple `(4, 5, 1)`. -/
theorem C17_batch_trusts_cached_challenge_witness :
    batch_pass 23 11 2 (BN_mod_exp 2 3 23) [{ f := 4, r := 5, c := 1 }] = true ∧
      verify_one sumHash 23 11 2 (BN_mod_exp 2 3 23) { f := 4, r := 5, c := 1 } = false :=
  C17_batch_trusts_cached_challenge sumHash 23 11 2 3 4 5 1 (by decide) (by norm_num)
    (by decide) (by intro k h0 hk; interval_cases k <;> decide)
    (by decide) (by decide) (by decide) (by decide) (by decide) (by decide) (by decide)

end FsBatch
